import Mathlib

/-!
Verification of the CHRONOS calendar backend core logic.

Two subsystems are embedded here, translated from the backend source:

* the free-slot finder of the route handler
  `GET /api/events/suggestions/free-slots` in `backend/routes/events.js`;
* the reminder dispatcher `checkUpcomingEvents` in
  `backend/services/notificationService.js`, run by a cron tick in
  `backend/server.js`.

Timestamps are modelled as `Int` milliseconds (JavaScript `Date` values are
exact integer millisecond counts well below 2^53, so `Int` is a faithful
model).  The route computes a slot duration in minutes as
`(end - start) / 60000` with real division and compares it with
`slotDuration >= duration`; over the integers this comparison is exactly
`end - start ≥ duration * 60000`, which is how the filter is written below.
-/

namespace Chronos

/-- Milliseconds per minute, the conversion constant `1000 * 60` of the
source. -/
def msPerMin : Int := 60000

/-! ## Free-slot finder (`backend/routes/events.js`, free-slots route)

The handler reads the target day window `[dayStart, dayEnd]` from the user
working hours, fetches the events of the requesting user whose interval
overlaps the window (`start: { $lt: dayEnd }, end: { $gt: dayStart }`)
sorted by `start` ascending, and sweeps them left to right.  Only the
`start` and `end` fields of an event are read by the algorithm, so the
model event carries exactly those; the per-user scoping of the query is
modelled by the caller passing that user's events. -/

/-- An event as read by the free-slot sweep: interval `[start, end)` in
epoch milliseconds.  The stored document has more (display) fields; the
sweep reads only these two.  The Event schema enforces `start < end` on
save (`eventSchema.pre('save')` rejects `end <= start`). -/
structure CalEvent where
  start : Int
  «end» : Int
deriving DecidableEq

/-- A returned free slot `{start, end, duration}`.  The source stores
`duration` in minutes (`(end - start) / 60000`); it is kept here in exact
milliseconds as `durationMs`. -/
structure FreeSlot where
  start : Int
  «end» : Int
  durationMs : Int
deriving DecidableEq

/-- Comparison used by the query sort `.sort({ start: 1 })`. -/
def startLE (a b : CalEvent) : Prop := a.start ≤ b.start

instance : DecidableRel startLE := fun a b => Int.decLe a.start b.start

instance : IsTotal CalEvent startLE := ⟨fun a b => Int.le_total a.start b.start⟩

instance : IsTrans CalEvent startLE := ⟨fun _ _ _ h1 h2 => le_trans h1 h2⟩

/-- The overlap test of the Mongo query:
`start: { $lt: dayEnd }, end: { $gt: dayStart }`. -/
def overlapsDay (dayStart dayEnd : Int) (e : CalEvent) : Bool :=
  decide (e.start < dayEnd) && decide (dayStart < e.«end»)

/-- The sweep loop of the handler.  `currentTime` is the cursor, started at
`dayStart`.  For each event (in `start` order) the event bounds are clamped
(`eventStart = max(event.start, dayStart)`, `eventEnd = min(event.end,
dayEnd)`); a gap `[currentTime, eventStart)` is emitted when it is nonempty
and at least `duration` minutes long, and the cursor advances with
`currentTime = max(currentTime, eventEnd)`.  After the loop the trailing
gap `[currentTime, dayEnd)` is emitted under the same duration filter. -/
def sweepSlots (dayStart dayEnd duration : Int) :
    List CalEvent → Int → List FreeSlot
  | [], currentTime =>
    if currentTime < dayEnd then
      if dayEnd - currentTime ≥ duration * msPerMin then
        [⟨currentTime, dayEnd, dayEnd - currentTime⟩]
      else []
    else []
  | e :: es, currentTime =>
    let eventStart := max e.start dayStart
    let eventEnd := min e.«end» dayEnd
    (if currentTime < eventStart then
      if eventStart - currentTime ≥ duration * msPerMin then
        [⟨currentTime, eventStart, eventStart - currentTime⟩]
      else []
    else []) ++ sweepSlots dayStart dayEnd duration es (max currentTime eventEnd)

/-- The free-slot computation of the route body: filter the events to the
day window as the Mongo query does, sort by `start` ascending, and run the
sweep with the cursor at `dayStart`. -/
def findFreeSlots (dayStart dayEnd duration : Int) (events : List CalEvent) :
    List FreeSlot :=
  sweepSlots dayStart dayEnd duration
    (List.insertionSort startLE (events.filter (overlapsDay dayStart dayEnd)))
    dayStart

/-- The whole route handler.  `duration?` models the `duration` query
parameter, defaulted with `const { duration = 60 } = req.query`.  The
handler wraps its body in try/catch (returning a 500 error response on a
thrown exception); the body contains no validation and no throw site on
these inputs, so the handler always answers `ok` with the computed slots:
there is no `InvalidInput` rejection path in the source. -/
def freeSlotsRoute (dayStart dayEnd : Int) (duration? : Option Int)
    (events : List CalEvent) : Except String (List FreeSlot) :=
  let duration := duration?.getD 60
  Except.ok (findFreeSlots dayStart dayEnd duration events)

/-- Two half-open intervals `[s1, e1)` and `[s2, e2)` intersect. -/
def intervalsOverlap (s1 e1 s2 e2 : Int) : Prop := s1 < e2 ∧ s2 < e1

/-- The route handler rejects the request (the claim wording "fails with an
error"). -/
def routeFails (r : Except String (List FreeSlot)) : Prop :=
  ∃ m, r = Except.error m

/-- Every slot the sweep emits starts at or after the cursor, is nonempty,
and ends by `dayEnd`, provided the cursor is at or after `dayStart` and
every listed event starts before `dayEnd` (which the day query
guarantees). -/
lemma sweepSlots_mem (dS dE d : Int) :
    ∀ (es : List CalEvent) (c : Int), dS ≤ c → (∀ e ∈ es, e.start < dE) →
      ∀ s ∈ sweepSlots dS dE d es c,
        c ≤ s.start ∧ s.start < s.«end» ∧ s.«end» ≤ dE := by
  intro es
  induction es with
  | nil =>
    intro c hc _ s hs
    simp only [sweepSlots] at hs
    split_ifs at hs with h1 h2
    · simp only [List.mem_singleton] at hs
      subst hs
      exact ⟨le_refl _, h1, le_refl _⟩
    · simp at hs
    · simp at hs
  | cons e es ih =>
    intro c hc hlt s hs
    simp only [sweepSlots, List.mem_append] at hs
    rcases hs with hs | hs
    · split_ifs at hs with h1 h2
      · simp only [List.mem_singleton] at hs
        subst hs
        have he : e.start < dE := hlt e (by simp)
        refine ⟨le_refl _, h1, ?_⟩
        simp only
        omega
      · simp at hs
      · simp at hs
    · have h := ih (max c (min e.«end» dE)) (le_trans hc (le_max_left _ _))
        (fun x hx => hlt x (by simp [hx])) s hs
      exact ⟨le_trans (le_max_left c _) h.1, h.2.1, h.2.2⟩

/-- The slots the sweep emits are pairwise ordered and disjoint
(`a.end ≤ b.start` for `a` before `b`), provided every listed event starts
before `dayEnd` and is a nonempty interval. -/
lemma sweepSlots_pairwise (dS dE d : Int) :
    ∀ (es : List CalEvent) (c : Int), dS ≤ c →
      (∀ e ∈ es, e.start < dE ∧ e.start < e.«end») →
      (sweepSlots dS dE d es c).Pairwise (fun a b => a.«end» ≤ b.start) := by
  intro es
  induction es with
  | nil =>
    intro c hc _
    simp only [sweepSlots]
    split_ifs <;> simp
  | cons e es ih =>
    intro c hc he
    have hrest := ih (max c (min e.«end» dE)) (le_trans hc (le_max_left _ _))
      (fun x hx => he x (by simp [hx]))
    have hmem := sweepSlots_mem dS dE d es (max c (min e.«end» dE))
      (le_trans hc (le_max_left _ _)) (fun x hx => (he x (by simp [hx])).1)
    have hed : e.start < dE ∧ e.start < e.«end» := he e (by simp)
    simp only [sweepSlots]
    split_ifs with h1 h2
    · refine List.Pairwise.cons ?_ hrest
      intro s hs
      have := hmem s hs
      simp only
      omega
    · simpa using hrest
    · simpa using hrest

/-- No slot the sweep emits overlaps any listed event, when the listed
events are sorted by start, start before `dayEnd`, and the cursor is at or
after `dayStart`. -/
lemma sweepSlots_no_overlap (dS dE d : Int) :
    ∀ (es : List CalEvent) (c : Int), dS ≤ c →
      (∀ x ∈ es, x.start < dE) → es.Pairwise startLE →
      ∀ e ∈ es, ∀ s ∈ sweepSlots dS dE d es c,
        ¬ intervalsOverlap s.start s.«end» e.start e.«end» := by
  intro es
  induction es with
  | nil => intro c _ _ _ e he; simp at he
  | cons x es ih =>
    intro c hc hlt hsort e he s hs
    have hxlt : x.start < dE := hlt x (by simp)
    have hmem := sweepSlots_mem dS dE d es (max c (min x.«end» dE))
      (le_trans hc (le_max_left _ _)) (fun y hy => hlt y (by simp [hy]))
    simp only [sweepSlots, List.mem_append] at hs
    rcases List.mem_cons.mp he with he | he
    · subst he
      rcases hs with hs | hs
      · split_ifs at hs with h1 h2
        · simp only [List.mem_singleton] at hs
          subst hs
          rintro ⟨hov1, hov2⟩
          simp only at hov1 hov2
          omega
        · simp at hs
        · simp at hs
      · have h := hmem s hs
        rintro ⟨hov1, hov2⟩
        omega
    · rcases hs with hs | hs
      · split_ifs at hs with h1 h2
        · simp only [List.mem_singleton] at hs
          subst hs
          have hxe : startLE x e := (List.pairwise_cons.mp hsort).1 e he
          rintro ⟨hov1, hov2⟩
          simp only at hov1 hov2
          unfold startLE at hxe
          omega
        · simp at hs
        · simp at hs
      · exact ih (max c (min x.«end» dE)) (le_trans hc (le_max_left _ _))
          (fun y hy => hlt y (by simp [hy]))
          (List.pairwise_cons.mp hsort).2 e he s hs

/-- Every event in the sorted, day-filtered list the sweep runs over
starts before `dayEnd`. -/
lemma mem_sortedDayEvents {dS dE : Int} {events : List CalEvent}
    {x : CalEvent}
    (hx : x ∈ List.insertionSort startLE (events.filter (overlapsDay dS dE))) :
    x.start < dE ∧ dS < x.«end» ∧ x ∈ events := by
  rw [List.mem_insertionSort, List.mem_filter] at hx
  have := hx.2
  simp only [overlapsDay, Bool.and_eq_true, decide_eq_true_eq] at this
  exact ⟨this.1, this.2, hx.1⟩

/-- When the working window is inverted or empty (`dayEnd ≤ dayStart`) the
sweep emits nothing, because the cursor starts at `dayStart` and never
drops below it while every clamped event start is at most `dayStart`. -/
lemma sweepSlots_empty_of_inverted (dS dE d : Int) :
    ∀ (es : List CalEvent) (c : Int), dS ≤ c → (∀ e ∈ es, e.start < dE) →
      dE ≤ dS → sweepSlots dS dE d es c = [] := by
  intro es
  induction es with
  | nil =>
    intro c hc _ hinv
    simp only [sweepSlots]
    split_ifs with h1 h2 <;> first | omega | rfl
  | cons e es ih =>
    intro c hc hlt hinv
    have he : e.start < dE := hlt e (by simp)
    simp only [sweepSlots]
    rw [if_neg (by omega)]
    rw [ih (max c (min e.«end» dE)) (le_trans hc (le_max_left _ _))
      (fun x hx => hlt x (by simp [hx])) hinv]
    simp

/-- Raising the duration bound can only drop slots: the `d2`-filtered sweep
output is a sublist of the `d1`-filtered one when `d1 ≤ d2`.  The cursor
advance does not depend on whether a gap passed the filter, so the gaps
are identical and only the filter changes. -/
lemma sweepSlots_sublist (dS dE d1 d2 : Int) (h : d1 ≤ d2) :
    ∀ (es : List CalEvent) (c : Int),
      List.Sublist (sweepSlots dS dE d2 es c) (sweepSlots dS dE d1 es c) := by
  intro es
  induction es with
  | nil =>
    intro c
    simp only [sweepSlots, msPerMin]
    split_ifs with h1 h2 h3 h4 <;>
      first
        | exact List.Sublist.refl _
        | exact List.nil_sublist _
        | omega
  | cons e es ih =>
    intro c
    simp only [sweepSlots, msPerMin]
    split_ifs with h1 h2 h3 h4 <;>
      first
        | exact (ih _).append_left _
        | simpa using (ih _).trans (List.sublist_cons_self _ _)
        | omega

/-- Claim C2: no free slot returned by the free-slot computation overlaps
any input event interval; overlapping and contained events are absorbed by
the `cursor = max(cursor, eventEnd)` advance. -/
theorem freeSlots_slot_not_overlap_event (dS dE d : Int)
    (events : List CalEvent) :
    ∀ s ∈ findFreeSlots dS dE d events, ∀ e ∈ events,
      ¬ intervalsOverlap s.start s.«end» e.start e.«end» := by
  intro s hs e he
  have hlt : ∀ x ∈ List.insertionSort startLE
      (events.filter (overlapsDay dS dE)), x.start < dE :=
    fun x hx => (mem_sortedDayEvents hx).1
  have hsort : (List.insertionSort startLE
      (events.filter (overlapsDay dS dE))).Pairwise startLE :=
    List.sorted_insertionSort startLE _
  by_cases hov : overlapsDay dS dE e = true
  · have heL : e ∈ List.insertionSort startLE
        (events.filter (overlapsDay dS dE)) := by
      rw [List.mem_insertionSort, List.mem_filter]
      exact ⟨he, hov⟩
    exact sweepSlots_no_overlap dS dE d _ dS (le_refl _) hlt hsort e heL s hs
  · obtain ⟨hb1, hb2, hb3⟩ := sweepSlots_mem dS dE d _ dS (le_refl _) hlt s hs
    simp only [overlapsDay, Bool.and_eq_true, decide_eq_true_eq] at hov
    rintro ⟨h1, h2⟩
    rcases Decidable.not_and_iff_or_not.mp hov with h | h <;> omega

/-- Witness for C2 at the spec overlap scenario (working hours
09:00–17:00 as minutes 540–1020, events 10:00–11:30 and 11:00–12:00): the
first returned slot does not overlap the first event. -/
theorem freeSlots_slot_not_overlap_event_witness :
    ¬ intervalsOverlap (540 * msPerMin) (600 * msPerMin)
      (600 * msPerMin) (690 * msPerMin) :=
  freeSlots_slot_not_overlap_event (540 * msPerMin) (1020 * msPerMin) 30
    [⟨600 * msPerMin, 690 * msPerMin⟩, ⟨660 * msPerMin, 720 * msPerMin⟩]
    ⟨540 * msPerMin, 600 * msPerMin, 60 * msPerMin⟩ (by decide)
    ⟨600 * msPerMin, 690 * msPerMin⟩ (by decide)

/-- Claim C5 counterexample: with `duration = 0 ≤ 0` the route does not
fail; it answers `ok` with the computed slots, because the handler has no
duration validation at all. -/
theorem route_ok_at_nonpositive_duration :
    freeSlotsRoute 0 (60 * msPerMin) (some 0) [] =
      Except.ok [⟨0, 60 * msPerMin, 60 * msPerMin⟩] ∧
    ¬ routeFails (freeSlotsRoute 0 (60 * msPerMin) (some 0) []) := by
  constructor
  · rfl
  · rintro ⟨m, hm⟩
    simp [freeSlotsRoute] at hm

/-- Claim C5 as amended: the duration defaults to 60 when unspecified, and
the route never rejects a request — any duration, including nonpositive
ones, is accepted and answered with `ok`. -/
theorem route_duration_default_and_total (dS dE d : Int)
    (events : List CalEvent) :
    freeSlotsRoute dS dE none events = freeSlotsRoute dS dE (some 60) events ∧
    ¬ routeFails (freeSlotsRoute dS dE (some d) events) := by
  refine ⟨rfl, ?_⟩
  rintro ⟨m, hm⟩
  simp [freeSlotsRoute] at hm

/-- Claim C6 counterexample: with an inverted window (`dayEnd = 50 ≤ 100 =
dayStart`) the route does not fail with an error; it answers `ok []`. -/
theorem route_ok_at_inverted_window :
    freeSlotsRoute 100 50 (some 60) [⟨40, 120⟩] = Except.ok [] ∧
    ¬ routeFails (freeSlotsRoute 100 50 (some 60) [⟨40, 120⟩]) := by
  constructor
  · rfl
  · rintro ⟨m, hm⟩
    simp [freeSlotsRoute] at hm

/-- Claim C6 as amended: whenever `dayEnd ≤ dayStart` the route succeeds
with the empty slot list (no error is raised). -/
theorem route_empty_of_inverted_window (dS dE : Int) (dur? : Option Int)
    (events : List CalEvent) (h : dE ≤ dS) :
    freeSlotsRoute dS dE dur? events = Except.ok [] := by
  have hempty : findFreeSlots dS dE (dur?.getD 60) events = [] :=
    sweepSlots_empty_of_inverted dS dE _ _ dS (le_refl _)
      (fun x hx => (mem_sortedDayEvents hx).1) h
  simp [freeSlotsRoute, hempty]

/-- Witness for the amended C6 at a concrete inverted window. -/
theorem route_empty_of_inverted_window_witness :
    freeSlotsRoute 10 5 none [⟨2, 7⟩] = Except.ok [] :=
  route_empty_of_inverted_window 10 5 none [⟨2, 7⟩] (by decide)

/-- Claim C7: for a fixed day window and event set, raising the duration
bound from `d1` to `d2 ≥ d1` keeps the result a subset (indeed a sublist)
of the `d1` result, so the number of slots never increases. -/
theorem freeSlots_antitone_in_duration (dS dE d1 d2 : Int)
    (events : List CalEvent) (h : d1 ≤ d2) :
    (∀ s ∈ findFreeSlots dS dE d2 events, s ∈ findFreeSlots dS dE d1 events) ∧
    (findFreeSlots dS dE d2 events).length ≤
      (findFreeSlots dS dE d1 events).length := by
  have hsub := sweepSlots_sublist dS dE d1 d2 h
    (List.insertionSort startLE (events.filter (overlapsDay dS dE))) dS
  exact ⟨fun s hs => hsub.subset hs, hsub.length_le⟩

/-- Witness for C7: one event on the day, duration bound raised from 30 to
90 minutes; the slot count does not increase. -/
theorem freeSlots_antitone_in_duration_witness :
    (findFreeSlots 0 (120 * msPerMin) 90
      [⟨40 * msPerMin, 60 * msPerMin⟩]).length ≤
    (findFreeSlots 0 (120 * msPerMin) 30
      [⟨40 * msPerMin, 60 * msPerMin⟩]).length :=
  (freeSlots_antitone_in_duration 0 (120 * msPerMin) 30 90
    [⟨40 * msPerMin, 60 * msPerMin⟩] (by decide)).2

/-- Claim C8: for valid stored events (the Event schema enforces
`start < end` on save), the returned slots are in strictly chronological
start order, pairwise non-overlapping, and contained in
`[dayStart, dayEnd]`. -/
theorem freeSlots_sorted_disjoint_within (dS dE d : Int)
    (events : List CalEvent) (hval : ∀ e ∈ events, e.start < e.«end») :
    (findFreeSlots dS dE d events).Pairwise (fun a b => a.start < b.start) ∧
    (findFreeSlots dS dE d events).Pairwise (fun a b => a.«end» ≤ b.start) ∧
    ∀ s ∈ findFreeSlots dS dE d events,
      dS ≤ s.start ∧ s.start < s.«end» ∧ s.«end» ≤ dE := by
  have hcond : ∀ x ∈ List.insertionSort startLE
      (events.filter (overlapsDay dS dE)), x.start < dE ∧ x.start < x.«end» :=
    fun x hx => ⟨(mem_sortedDayEvents hx).1, hval x (mem_sortedDayEvents hx).2.2⟩
  have hpw := sweepSlots_pairwise dS dE d _ dS (le_refl _) hcond
  have hmem := sweepSlots_mem dS dE d
    (List.insertionSort startLE (events.filter (overlapsDay dS dE))) dS
    (le_refl _) (fun x hx => (hcond x hx).1)
  refine ⟨?_, hpw, fun s hs => hmem s hs⟩
  refine List.Pairwise.imp_of_mem ?_ hpw
  intro a b ha _ hab
  have := hmem a ha
  omega

/-- Witness for C8 at the spec one-event scenario (event 10:00–11:00 in a
09:00–17:00 window): the returned slots are in strictly increasing start
order. -/
theorem freeSlots_sorted_disjoint_within_witness :
    (findFreeSlots (540 * msPerMin) (1020 * msPerMin) 30
      [⟨600 * msPerMin, 660 * msPerMin⟩]).Pairwise
        (fun a b => a.start < b.start) :=
  (freeSlots_sorted_disjoint_within (540 * msPerMin) (1020 * msPerMin) 30
    [⟨600 * msPerMin, 660 * msPerMin⟩] (by decide)).1

/-- Claim C9: with zero events on the day the result is the single slot
spanning the whole working window whenever that window is nonempty and
meets the duration bound (the `>=` filter is inclusive), and when the
window does not meet the bound the route still succeeds, with the empty
sequence rather than an error. -/
theorem freeSlots_empty_day (dS dE d : Int) :
    (dS < dE → d * msPerMin ≤ dE - dS →
      findFreeSlots dS dE d [] = [⟨dS, dE, dE - dS⟩]) ∧
    (dE - dS < d * msPerMin →
      freeSlotsRoute dS dE (some d) [] = Except.ok []) := by
  constructor
  · intro h1 h2
    simp only [findFreeSlots, List.filter_nil, List.insertionSort, sweepSlots]
    rw [if_pos h1, if_pos (show dE - dS ≥ d * msPerMin from h2)]
  · intro h
    have : findFreeSlots dS dE d [] = [] := by
      simp only [findFreeSlots, List.filter_nil, List.insertionSort, sweepSlots]
      split_ifs with h1 h2 <;> first | omega | rfl
    simp [freeSlotsRoute, this]

/-- Witness for C9 at the spec boundary scenario: 09:00–17:00 with
`minDuration = 480` yields exactly the single 480-minute slot — the
inclusive `>=` filter passes the exact-length window. -/
theorem freeSlots_empty_day_witness :
    findFreeSlots (540 * msPerMin) (1020 * msPerMin) 480 [] =
      [⟨540 * msPerMin, 1020 * msPerMin, 480 * msPerMin⟩] :=
  (freeSlots_empty_day (540 * msPerMin) (1020 * msPerMin) 480).1
    (by decide) (by decide)

/-! ## Reminder dispatcher (`backend/services/notificationService.js`)

`checkUpcomingEvents` is invoked by a `node-cron` tick every minute
(`backend/server.js`).  One invocation (a sweep) queries events with
`start: { $gt: now }` having some reminder with `sent: false`, fires every
unsent reminder whose trigger instant `start - time minutes` has passed
(create Notification, emit on the socket, set `sent = true`, save), then
queries todos with `status ≠ completed`, `dueDate` within `[now, now+1h]`,
`reminder.enabled` and `reminder.sent ≠ true`, and fires each the same
way.  The socket emit has no effect on stored state and is not modelled.

The documents are modelled with the fields the sweep reads and writes;
display-only fields (titles, messages, urls) are omitted.  A created
notification additionally carries ghost provenance fields
(`srcEventReminder`, `srcTodoReminder`) recording which reminder instance
it was created for — the stored document only links `relatedEvent` or
`relatedTodo`, which does not distinguish two reminders of one event, and
the ghost fields exist purely so the per-reminder-instance counting of the
claims can be stated. -/

/-- An element of an Event `reminders` array: `time` is the offset in
minutes before the event start (schema default 15), `sent` the dispatch
flag (schema default false).  The schema `type` tag
(notification/email) is not read by the sweep. -/
structure Reminder where
  time : Int
  sent : Bool
deriving DecidableEq

/-- An Event document, restricted to the fields the sweep touches. -/
structure EventDoc where
  id : Nat
  user : Nat
  start : Int
  reminders : List Reminder
deriving DecidableEq

/-- The embedded `reminder` of a Todo document.  The schema also stores a
`time : Date` there, which the sweep never reads. -/
structure TodoReminder where
  enabled : Bool
  sent : Bool
deriving DecidableEq

/-- A Todo document, restricted to the fields the sweep touches.
`dueDate` is optional in the schema. -/
structure TodoDoc where
  id : Nat
  user : Nat
  status : String
  dueDate : Option Int
  reminder : TodoReminder
deriving DecidableEq

/-- A Notification document as created by the sweep, plus the two ghost
provenance fields described above. -/
structure NotifDoc where
  user : Nat
  type : String
  relatedEvent : Option Nat
  relatedTodo : Option Nat
  srcEventReminder : Option (Nat × Nat)
  srcTodoReminder : Option Nat
deriving DecidableEq

/-- The store: the three collections the sweep reads and writes. -/
structure DbState where
  events : List EventDoc
  todos : List TodoDoc
  notifs : List NotifDoc
deriving DecidableEq

/-- A reminder fires now: it is unsent and its trigger instant
`event.start - reminder.time minutes` has passed (`now >= reminderTime` in
the source). -/
def fires (now start : Int) (r : Reminder) : Bool :=
  !r.sent && decide (start - r.time * msPerMin ≤ now)

/-- The notification document created for reminder `i` of an event
(`type: event_reminder`, `relatedEvent: event._id`). -/
def evNotif (e : EventDoc) (i : Nat) : NotifDoc :=
  { user := e.user, type := "event_reminder", relatedEvent := some e.id,
    relatedTodo := none, srcEventReminder := some (e.id, i),
    srcTodoReminder := none }

/-- The inner loop over `event.reminders`: index `i` is the loop counter.
A sent reminder is skipped (`continue`); a due unsent one produces its
notification and is marked sent in place. -/
def processReminders (now : Int) (e : EventDoc) :
    List Reminder → Nat → List Reminder × List NotifDoc
  | [], _ => ([], [])
  | r :: rs, i =>
    if fires now e.start r then
      let rest := processReminders now e rs (i + 1)
      ({ r with sent := true } :: rest.1, evNotif e i :: rest.2)
    else
      let rest := processReminders now e rs (i + 1)
      (r :: rest.1, rest.2)

/-- The event query of the sweep:
`start: { $gt: now }, 'reminders.sent': false` — the event starts strictly
after `now` and some reminder is unsent. -/
def eventQueryMatches (now : Int) (e : EventDoc) : Bool :=
  decide (now < e.start) && e.reminders.any (fun r => !r.sent)

/-- Processing of one fetched event: the reminder loop runs only on
events the query returned; its updated reminders are saved back. -/
def processEvent (now : Int) (e : EventDoc) : EventDoc × List NotifDoc :=
  if eventQueryMatches now e then
    let res := processReminders now e e.reminders 0
    ({ e with reminders := res.1 }, res.2)
  else (e, [])

/-- The todo query of the sweep: `status: { $ne: completed }`,
`dueDate: { $gte: now, $lte: soon }` with `soon = now + 1h`,
`'reminder.enabled': true`, `'reminder.sent': { $ne: true }`.  A missing
`dueDate` matches no range condition. -/
def todoQueryMatches (now : Int) (t : TodoDoc) : Bool :=
  decide (t.status ≠ "completed") &&
    (match t.dueDate with
     | some d => decide (now ≤ d) && decide (d ≤ now + 60 * msPerMin)
     | none => false) &&
    t.reminder.enabled && !t.reminder.sent

/-- The notification document created for a todo reminder
(`type: todo_reminder`, `relatedTodo: todo._id`). -/
def todoNotif (t : TodoDoc) : NotifDoc :=
  { user := t.user, type := "todo_reminder", relatedEvent := none,
    relatedTodo := some t.id, srcEventReminder := none,
    srcTodoReminder := some t.id }

/-- Processing of one fetched todo: create its notification and mark the
reminder sent. -/
def processTodo (now : Int) (t : TodoDoc) : TodoDoc × List NotifDoc :=
  if todoQueryMatches now t then
    ({ t with reminder := { t.reminder with sent := true } }, [todoNotif t])
  else (t, [])

/-- One sweep of `checkUpcomingEvents` with every store write succeeding:
each matching event has its due reminders fired and marked, then each
matching todo; created notifications are appended to the notification
collection. -/
def checkUpcomingEvents (now : Int) (s : DbState) : DbState :=
  let evRes := s.events.map (processEvent now)
  let tdRes := s.todos.map (processTodo now)
  { events := evRes.map Prod.fst,
    todos := tdRes.map Prod.fst,
    notifs := s.notifs ++ (evRes.map Prod.snd).flatten
      ++ (tdRes.map Prod.snd).flatten }

/-- A sequence of sweeps at the given instants (the cron tick invokes one
sweep per minute; the instants are arbitrary here, including repeated or
out-of-order ones). -/
def sweeps : List Int → DbState → DbState
  | [], s => s
  | t :: ts, s => sweeps ts (checkUpcomingEvents t s)

/-- Number of stored notifications created for reminder `i` of the event
with id `eid` (counted through the ghost provenance field). -/
def countEvRemNotifs (eid i : Nat) (ns : List NotifDoc) : Nat :=
  (ns.filter (fun n => decide (n.srcEventReminder = some (eid, i)))).length

/-- Number of stored notifications created for the reminder of the todo
with id `tid`. -/
def countTodoRemNotifs (tid : Nat) (ns : List NotifDoc) : Nat :=
  (ns.filter (fun n => decide (n.srcTodoReminder = some tid))).length

/-- The `sent` flag of reminder `i` of the event with id `eid` (false when
no such event or reminder exists). -/
def evRemSent (eid i : Nat) (s : DbState) : Bool :=
  s.events.any (fun e => decide (e.id = eid) &&
    (match e.reminders.get? i with
     | some r => r.sent
     | none => false))

/-- The `sent` flag of the reminder of the todo with id `tid`. -/
def todoRemSent (tid : Nat) (s : DbState) : Bool :=
  s.todos.any (fun t => decide (t.id = tid) && t.reminder.sent)

/-- Whether reminder `k` of the list fires now (false past the end). -/
def firesAt (now start : Int) (rs : List Reminder) (k : Nat) : Bool :=
  match rs.get? k with
  | some r => fires now start r
  | none => false

/-- What the reminder loop leaves behind for one reminder: marked sent if
it fired, untouched otherwise. -/
def markIfFires (now start : Int) (r : Reminder) : Reminder :=
  if fires now start r then { r with sent := true } else r

lemma firesAt_cons_zero (now start : Int) (r : Reminder) (rs : List Reminder) :
    firesAt now start (r :: rs) 0 = fires now start r := rfl

lemma firesAt_cons_succ (now start : Int) (r : Reminder) (rs : List Reminder)
    (k : Nat) : firesAt now start (r :: rs) (k + 1) = firesAt now start rs k := rfl

lemma firesAt_nil (now start : Int) (k : Nat) :
    firesAt now start [] k = false := by
  cases k <;> rfl

lemma markIfFires_sent_mono (now start : Int) (r : Reminder)
    (h : r.sent = true) : markIfFires now start r = r := by
  simp [markIfFires, fires, h]

/-- The updated reminders array of one event is the pointwise marking of
the original. -/
lemma processReminders_fst (now : Int) (e : EventDoc) :
    ∀ (rs : List Reminder) (i : Nat),
      (processReminders now e rs i).1 = rs.map (markIfFires now e.start) := by
  intro rs
  induction rs with
  | nil => intro i; rfl
  | cons r rs ih =>
    intro i
    by_cases h : fires now e.start r = true <;>
      simp [processReminders, markIfFires, h, ih]

lemma countEvRemNotifs_append (eid i : Nat) (a b : List NotifDoc) :
    countEvRemNotifs eid i (a ++ b) =
      countEvRemNotifs eid i a + countEvRemNotifs eid i b := by
  simp [countEvRemNotifs, List.filter_append]

lemma countTodoRemNotifs_append (tid : Nat) (a b : List NotifDoc) :
    countTodoRemNotifs tid (a ++ b) =
      countTodoRemNotifs tid a + countTodoRemNotifs tid b := by
  simp [countTodoRemNotifs, List.filter_append]

lemma countEvRemNotifs_cons (eid i : Nat) (n : NotifDoc) (ns : List NotifDoc) :
    countEvRemNotifs eid i (n :: ns) =
      (if n.srcEventReminder = some (eid, i) then 1 else 0)
        + countEvRemNotifs eid i ns := by
  by_cases h : n.srcEventReminder = some (eid, i)
  · simp [countEvRemNotifs, List.filter_cons, h]
    omega
  · simp [countEvRemNotifs, List.filter_cons, h]

lemma countTodoRemNotifs_cons (tid : Nat) (n : NotifDoc) (ns : List NotifDoc) :
    countTodoRemNotifs tid (n :: ns) =
      (if n.srcTodoReminder = some tid then 1 else 0)
        + countTodoRemNotifs tid ns := by
  by_cases h : n.srcTodoReminder = some tid
  · simp [countTodoRemNotifs, List.filter_cons, h]
    omega
  · simp [countTodoRemNotifs, List.filter_cons, h]

lemma filter_flatten_length {α : Type} (p : α → Bool) :
    ∀ l : List (List α),
      (l.flatten.filter p).length =
        (l.map (fun x => (x.filter p).length)).sum := by
  intro l
  induction l with
  | nil => rfl
  | cons a l ih => simp [List.filter_append, ih, Function.comp_def]

/-- Exactly one notification comes out of the reminder loop for target
reminder `(eid, j)`: one when the loop (entered with counter `i`) reaches
position `j - i` and that reminder fires, none otherwise. -/
lemma processReminders_snd_count (now : Int) (e : EventDoc) (eid j : Nat) :
    ∀ (rs : List Reminder) (i : Nat),
      countEvRemNotifs eid j (processReminders now e rs i).2 =
        if eid = e.id ∧ i ≤ j ∧ firesAt now e.start rs (j - i) = true
        then 1 else 0 := by
  intro rs
  induction rs with
  | nil =>
    intro i
    simp [processReminders, countEvRemNotifs, firesAt_nil]
  | cons r rs ih =>
    intro i
    by_cases hf : fires now e.start r = true
    · have hstep : (processReminders now e (r :: rs) i).2 =
          evNotif e i :: (processReminders now e rs (i + 1)).2 := by
        simp [processReminders, hf]
      rw [hstep, countEvRemNotifs_cons, ih (i + 1)]
      by_cases hid : eid = e.id
      · subst hid
        rcases Nat.lt_trichotomy i j with hij | rfl | hij
        · have h1 : ¬ (evNotif e i).srcEventReminder = some (e.id, j) := by
            simp only [evNotif]
            intro h
            rw [Option.some_inj, Prod.mk.injEq] at h
            omega
          rw [if_neg h1]
          have h2 : j - i = (j - (i + 1)) + 1 := by omega
          rw [h2, firesAt_cons_succ]
          by_cases hX : firesAt now e.start rs (j - (i + 1)) = true
          · rw [if_pos ⟨rfl, by omega, hX⟩, if_pos ⟨rfl, by omega, hX⟩]
          · rw [if_neg (fun h => hX h.2.2), if_neg (fun h => hX h.2.2)]
        · have h1 : (evNotif e i).srcEventReminder = some (e.id, i) := rfl
          rw [if_pos h1, if_neg (by rintro ⟨-, h, -⟩; omega),
            if_pos ⟨rfl, le_refl i,
              by rw [Nat.sub_self, firesAt_cons_zero]; exact hf⟩]
        · have h1 : ¬ (evNotif e i).srcEventReminder = some (e.id, j) := by
            simp only [evNotif]
            intro h
            rw [Option.some_inj, Prod.mk.injEq] at h
            omega
          rw [if_neg h1, if_neg (by rintro ⟨-, h, -⟩; omega),
            if_neg (by rintro ⟨-, h, -⟩; omega)]
      · have h1 : ¬ (evNotif e i).srcEventReminder = some (eid, j) := by
          simp only [evNotif]
          intro h
          rw [Option.some_inj, Prod.mk.injEq] at h
          exact hid h.1.symm
        rw [if_neg h1, if_neg (fun h => hid h.1), if_neg (fun h => hid h.1)]
    · have hstep : (processReminders now e (r :: rs) i).2 =
          (processReminders now e rs (i + 1)).2 := by
        simp [processReminders, hf]
      rw [hstep, ih (i + 1)]
      by_cases hid : eid = e.id
      · subst hid
        rcases Nat.lt_trichotomy i j with hij | rfl | hij
        · have h2 : j - i = (j - (i + 1)) + 1 := by omega
          rw [h2, firesAt_cons_succ]
          by_cases hX : firesAt now e.start rs (j - (i + 1)) = true
          · rw [if_pos ⟨rfl, by omega, hX⟩, if_pos ⟨rfl, by omega, hX⟩]
          · rw [if_neg (fun h => hX h.2.2), if_neg (fun h => hX h.2.2)]
        · rw [if_neg (by rintro ⟨-, h, -⟩; omega),
            if_neg (by
              rw [Nat.sub_self, firesAt_cons_zero]
              rintro ⟨-, -, h⟩
              exact hf h)]
        · rw [if_neg (by rintro ⟨-, h, -⟩; omega),
            if_neg (by rintro ⟨-, h, -⟩; omega)]
      · rw [if_neg (fun h => hid h.1), if_neg (fun h => hid h.1)]

lemma processEvent_fst_id (now : Int) (e : EventDoc) :
    (processEvent now e).1.id = e.id := by
  by_cases h : eventQueryMatches now e = true <;> simp [processEvent, h]

lemma processTodo_fst_id (now : Int) (t : TodoDoc) :
    (processTodo now t).1.id = t.id := by
  by_cases h : todoQueryMatches now t = true <;> simp [processTodo, h]

/-- Per-event notification count for a target reminder `(eid, j)`: one
exactly when this is the event, its query matched, and reminder `j`
fired. -/
lemma processEvent_snd_count (now : Int) (e : EventDoc) (eid j : Nat) :
    countEvRemNotifs eid j (processEvent now e).2 =
      if eid = e.id ∧ eventQueryMatches now e = true ∧
          firesAt now e.start e.reminders j = true then 1 else 0 := by
  by_cases hq : eventQueryMatches now e = true
  · have hstep : (processEvent now e).2 =
        (processReminders now e e.reminders 0).2 := by
      simp [processEvent, hq]
    rw [hstep, processReminders_snd_count]
    simp [hq]
  · simp [processEvent, hq, countEvRemNotifs]

lemma processTodo_snd_evCount (now : Int) (t : TodoDoc) (eid j : Nat) :
    countEvRemNotifs eid j (processTodo now t).2 = 0 := by
  by_cases h : todoQueryMatches now t = true <;>
    simp [processTodo, h, countEvRemNotifs, todoNotif, List.filter_cons]

lemma processReminders_snd_todoCount (now : Int) (e : EventDoc) (tid : Nat) :
    ∀ (rs : List Reminder) (i : Nat),
      countTodoRemNotifs tid (processReminders now e rs i).2 = 0 := by
  intro rs
  induction rs with
  | nil => intro i; simp [processReminders, countTodoRemNotifs]
  | cons r rs ih =>
    intro i
    by_cases hf : fires now e.start r = true <;>
      simp [processReminders, hf, countTodoRemNotifs_cons, evNotif, ih]

lemma processEvent_snd_todoCount (now : Int) (e : EventDoc) (tid : Nat) :
    countTodoRemNotifs tid (processEvent now e).2 = 0 := by
  by_cases hq : eventQueryMatches now e = true
  · have hstep : (processEvent now e).2 =
        (processReminders now e e.reminders 0).2 := by
      simp [processEvent, hq]
    rw [hstep]
    exact processReminders_snd_todoCount now e tid e.reminders 0
  · simp [processEvent, hq, countTodoRemNotifs]

/-- Per-todo notification count for the target todo reminder `tid`: one
exactly when this is the todo and its query matched. -/
lemma processTodo_snd_todoCount (now : Int) (t : TodoDoc) (tid : Nat) :
    countTodoRemNotifs tid (processTodo now t).2 =
      if tid = t.id ∧ todoQueryMatches now t = true then 1 else 0 := by
  by_cases h : todoQueryMatches now t = true
  · by_cases hid : tid = t.id
    · subst hid
      simp [processTodo, h, countTodoRemNotifs, todoNotif, List.filter_cons]
    · rw [if_neg (fun hc => hid hc.1)]
      have hstep : (processTodo now t).2 = [todoNotif t] := by
        simp [processTodo, h]
      have hne : ¬ (todoNotif t).srcTodoReminder = some tid := by
        simp only [todoNotif, Option.some_inj]
        exact fun hc => hid hc.symm
      rw [hstep, countTodoRemNotifs_cons, if_neg hne]
      simp [countTodoRemNotifs]
  · simp [processTodo, h, countTodoRemNotifs]

lemma countEvRemNotifs_flatten (eid j : Nat) (l : List (List NotifDoc)) :
    countEvRemNotifs eid j l.flatten =
      (l.map (countEvRemNotifs eid j)).sum := by
  simpa [countEvRemNotifs] using
    filter_flatten_length
      (fun n => decide (n.srcEventReminder = some (eid, j))) l

lemma countTodoRemNotifs_flatten (tid : Nat) (l : List (List NotifDoc)) :
    countTodoRemNotifs tid l.flatten =
      (l.map (countTodoRemNotifs tid)).sum := by
  simpa [countTodoRemNotifs] using
    filter_flatten_length (fun n => decide (n.srcTodoReminder = some tid)) l

/-- Sum of the per-event counts contributed by one sweep. -/
def evCountSum (now : Int) (eid j : Nat) (evs : List EventDoc) : Nat :=
  (evs.map (fun e => countEvRemNotifs eid j (processEvent now e).2)).sum

/-- Sum of the per-todo counts contributed by one sweep. -/
def todoCountSum (now : Int) (tid : Nat) (tds : List TodoDoc) : Nat :=
  (tds.map (fun t => countTodoRemNotifs tid (processTodo now t).2)).sum

/-- Notification bookkeeping of one sweep for a target event reminder:
the old store plus the per-event contributions (todos contribute none). -/
lemma sweep_notifs_evCount (now : Int) (s : DbState) (eid j : Nat) :
    countEvRemNotifs eid j (checkUpcomingEvents now s).notifs =
      countEvRemNotifs eid j s.notifs + evCountSum now eid j s.events := by
  simp only [checkUpcomingEvents]
  rw [countEvRemNotifs_append, countEvRemNotifs_append,
    countEvRemNotifs_flatten, countEvRemNotifs_flatten]
  have htd :
      (((s.todos.map (processTodo now)).map Prod.snd).map
        (countEvRemNotifs eid j)).sum = 0 := by
    apply List.sum_eq_zero
    intro x hx
    simp only [List.map_map, List.mem_map, Function.comp_apply] at hx
    obtain ⟨t, _, rfl⟩ := hx
    exact processTodo_snd_evCount now t eid j
  rw [htd]
  simp [evCountSum, List.map_map, Function.comp_def]

/-- Notification bookkeeping of one sweep for a target todo reminder. -/
lemma sweep_notifs_todoCount (now : Int) (s : DbState) (tid : Nat) :
    countTodoRemNotifs tid (checkUpcomingEvents now s).notifs =
      countTodoRemNotifs tid s.notifs + todoCountSum now tid s.todos := by
  simp only [checkUpcomingEvents]
  rw [countTodoRemNotifs_append, countTodoRemNotifs_append,
    countTodoRemNotifs_flatten, countTodoRemNotifs_flatten]
  have hev :
      (((s.events.map (processEvent now)).map Prod.snd).map
        (countTodoRemNotifs tid)).sum = 0 := by
    apply List.sum_eq_zero
    intro x hx
    simp only [List.map_map, List.mem_map, Function.comp_apply] at hx
    obtain ⟨e, _, rfl⟩ := hx
    exact processEvent_snd_todoCount now e tid
  rw [hev]
  simp [todoCountSum, List.map_map, Function.comp_def]

lemma evCountSum_zero_of_not_mem (now : Int) (eid j : Nat) :
    ∀ evs : List EventDoc, eid ∉ evs.map EventDoc.id →
      evCountSum now eid j evs = 0 := by
  intro evs
  induction evs with
  | nil => intro _; rfl
  | cons e evs ih =>
    intro h
    simp only [List.map_cons, List.mem_cons] at h
    push_neg at h
    simp only [evCountSum, List.map_cons, List.sum_cons]
    rw [processEvent_snd_count, if_neg (fun hc => h.1 hc.1)]
    simpa [evCountSum] using ih h.2

lemma todoCountSum_zero_of_not_mem (now : Int) (tid : Nat) :
    ∀ tds : List TodoDoc, tid ∉ tds.map TodoDoc.id →
      todoCountSum now tid tds = 0 := by
  intro tds
  induction tds with
  | nil => intro _; rfl
  | cons t tds ih =>
    intro h
    simp only [List.map_cons, List.mem_cons] at h
    push_neg at h
    simp only [todoCountSum, List.map_cons, List.sum_cons]
    rw [processTodo_snd_todoCount, if_neg (fun hc => h.1 hc.1)]
    simpa [todoCountSum] using ih h.2

/-- With unique event ids, the sweep contribution for the id of a stored
event is exactly that event's own contribution. -/
lemma evCountSum_of_mem (now : Int) (j : Nat) :
    ∀ (evs : List EventDoc) (e : EventDoc), (evs.map EventDoc.id).Nodup →
      e ∈ evs →
      evCountSum now e.id j evs =
        countEvRemNotifs e.id j (processEvent now e).2 := by
  intro evs
  induction evs with
  | nil => intro e _ he; cases he
  | cons x evs ih =>
    intro e hnd he
    have hnd' : x.id ∉ evs.map EventDoc.id ∧ (evs.map EventDoc.id).Nodup := by
      rw [List.map_cons, List.nodup_cons] at hnd
      exact hnd
    rcases List.mem_cons.mp he with rfl | he'
    · simp only [evCountSum, List.map_cons, List.sum_cons]
      have h0 : evCountSum now e.id j evs = 0 :=
        evCountSum_zero_of_not_mem now e.id j evs hnd'.1
      simp only [evCountSum] at h0
      omega
    · have hne : x.id ≠ e.id := by
        intro hc
        exact hnd'.1 (hc ▸ List.mem_map_of_mem EventDoc.id he')
      simp only [evCountSum, List.map_cons, List.sum_cons]
      rw [processEvent_snd_count, if_neg (fun hc => hne hc.1.symm)]
      simpa [evCountSum] using ih e hnd'.2 he'

/-- With unique todo ids, the sweep contribution for the id of a stored
todo is exactly that todo's own contribution. -/
lemma todoCountSum_of_mem (now : Int) :
    ∀ (tds : List TodoDoc) (t : TodoDoc), (tds.map TodoDoc.id).Nodup →
      t ∈ tds →
      todoCountSum now t.id tds =
        countTodoRemNotifs t.id (processTodo now t).2 := by
  intro tds
  induction tds with
  | nil => intro t _ ht; cases ht
  | cons x tds ih =>
    intro t hnd ht
    have hnd' : x.id ∉ tds.map TodoDoc.id ∧ (tds.map TodoDoc.id).Nodup := by
      rw [List.map_cons, List.nodup_cons] at hnd
      exact hnd
    rcases List.mem_cons.mp ht with rfl | ht'
    · simp only [todoCountSum, List.map_cons, List.sum_cons]
      have h0 : todoCountSum now t.id tds = 0 :=
        todoCountSum_zero_of_not_mem now t.id tds hnd'.1
      simp only [todoCountSum] at h0
      omega
    · have hne : x.id ≠ t.id := by
        intro hc
        exact hnd'.1 (hc ▸ List.mem_map_of_mem TodoDoc.id ht')
      simp only [todoCountSum, List.map_cons, List.sum_cons]
      rw [processTodo_snd_todoCount, if_neg (fun hc => hne hc.1.symm)]
      simpa [todoCountSum] using ih t hnd'.2 ht'

lemma get?_map' {α β : Type} (f : α → β) :
    ∀ (l : List α) (i : Nat), (l.map f).get? i = (l.get? i).map f := by
  intro l
  induction l with
  | nil => intro i; cases i <;> rfl
  | cons a l ih =>
    intro i
    cases i with
    | zero => rfl
    | succ n => exact ih n

lemma mem_of_get?' {α : Type} :
    ∀ {l : List α} {i : Nat} {a : α}, l.get? i = some a → a ∈ l := by
  intro l
  induction l with
  | nil => intro i a h; cases i <;> cases h
  | cons x l ih =>
    intro i a h
    cases i with
    | zero =>
      injection h with h
      rw [← h]
      exact List.mem_cons_self x l
    | succ n => exact List.mem_cons_of_mem x (ih h)

/-- Unfolding of `evRemSent` as an existential. -/
lemma evRemSent_eq_true (eid i : Nat) (s : DbState) :
    evRemSent eid i s = true ↔
      ∃ e ∈ s.events, e.id = eid ∧
        ∃ r, e.reminders.get? i = some r ∧ r.sent = true := by
  rw [evRemSent, List.any_eq_true]
  simp only [Bool.and_eq_true, decide_eq_true_eq]
  constructor
  · rintro ⟨e, he, hid, hm⟩
    refine ⟨e, he, hid, ?_⟩
    cases hr : e.reminders.get? i with
    | none => rw [hr] at hm; cases hm
    | some r =>
      rw [hr] at hm
      exact ⟨r, rfl, hm⟩
  · rintro ⟨e, he, hid, r, hr, hs⟩
    exact ⟨e, he, hid, by rw [hr]; exact hs⟩

/-- Unfolding of `todoRemSent` as an existential. -/
lemma todoRemSent_eq_true (tid : Nat) (s : DbState) :
    todoRemSent tid s = true ↔
      ∃ t ∈ s.todos, t.id = tid ∧ t.reminder.sent = true := by
  rw [todoRemSent, List.any_eq_true]
  simp

lemma sweep_events_eq (now : Int) (s : DbState) :
    (checkUpcomingEvents now s).events =
      s.events.map (fun e => (processEvent now e).1) := by
  simp [checkUpcomingEvents, List.map_map, Function.comp_def]

lemma sweep_todos_eq (now : Int) (s : DbState) :
    (checkUpcomingEvents now s).todos =
      s.todos.map (fun t => (processTodo now t).1) := by
  simp [checkUpcomingEvents, List.map_map, Function.comp_def]

/-- A sweep rewrites documents in place: ids are untouched. -/
lemma sweep_events_ids (now : Int) (s : DbState) :
    (checkUpcomingEvents now s).events.map EventDoc.id =
      s.events.map EventDoc.id := by
  rw [sweep_events_eq, List.map_map]
  exact List.map_congr_left (fun e _ => processEvent_fst_id now e)

lemma sweep_todos_ids (now : Int) (s : DbState) :
    (checkUpcomingEvents now s).todos.map TodoDoc.id =
      s.todos.map TodoDoc.id := by
  rw [sweep_todos_eq, List.map_map]
  exact List.map_congr_left (fun t _ => processTodo_fst_id now t)

lemma processEvent_fst_reminders (now : Int) (e : EventDoc) :
    (processEvent now e).1.reminders =
      if eventQueryMatches now e = true
      then e.reminders.map (markIfFires now e.start)
      else e.reminders := by
  by_cases h : eventQueryMatches now e = true <;>
    simp [processEvent, h, processReminders_fst]

lemma processTodo_fst_sent (now : Int) (t : TodoDoc) :
    (processTodo now t).1.reminder.sent =
      (t.reminder.sent || todoQueryMatches now t) := by
  by_cases h : todoQueryMatches now t = true <;> simp [processTodo, h]

/-- The sent flag of an event reminder survives a sweep. -/
lemma evRemSent_mono_sweep (now : Int) (s : DbState) (eid i : Nat)
    (h : evRemSent eid i s = true) :
    evRemSent eid i (checkUpcomingEvents now s) = true := by
  rw [evRemSent_eq_true] at h ⊢
  obtain ⟨e, he, hid, r, hr, hs⟩ := h
  refine ⟨(processEvent now e).1, ?_,
    by rw [processEvent_fst_id]; exact hid, ?_⟩
  · rw [sweep_events_eq]
    exact List.mem_map_of_mem _ he
  · by_cases hq : eventQueryMatches now e = true
    · refine ⟨markIfFires now e.start r, ?_, ?_⟩
      · rw [processEvent_fst_reminders, if_pos hq, get?_map', hr]
        rfl
      · rw [markIfFires_sent_mono now e.start r hs]
        exact hs
    · rw [processEvent_fst_reminders, if_neg hq]
      exact ⟨r, hr, hs⟩

/-- The sent flag of a todo reminder survives a sweep. -/
lemma todoRemSent_mono_sweep (now : Int) (s : DbState) (tid : Nat)
    (h : todoRemSent tid s = true) :
    todoRemSent tid (checkUpcomingEvents now s) = true := by
  rw [todoRemSent_eq_true] at h ⊢
  obtain ⟨t, ht, hid, hs⟩ := h
  refine ⟨(processTodo now t).1, ?_,
    by rw [processTodo_fst_id]; exact hid, ?_⟩
  · rw [sweep_todos_eq]
    exact List.mem_map_of_mem _ ht
  · rw [processTodo_fst_sent, hs]
    rfl

/-- A sent event reminder cannot fire (with unique ids, the stored flag
speaks about this very event). -/
lemma firesAt_false_of_sent (now : Int) (s : DbState) (e : EventDoc) (i : Nat)
    (hnd : (s.events.map EventDoc.id).Nodup) (he : e ∈ s.events)
    (hsent : evRemSent e.id i s = true) :
    firesAt now e.start e.reminders i = false := by
  rw [evRemSent_eq_true] at hsent
  obtain ⟨x, hx, hxid, r, hr, hs⟩ := hsent
  have hxe : x = e := List.inj_on_of_nodup_map hnd hx he hxid
  subst hxe
  simp only [firesAt, hr]
  simp [fires, hs]

/-- A sent todo reminder cannot match the todo query. -/
lemma todoQueryMatches_false_of_sent (now : Int) (s : DbState) (t : TodoDoc)
    (hnd : (s.todos.map TodoDoc.id).Nodup) (ht : t ∈ s.todos)
    (hsent : todoRemSent t.id s = true) :
    todoQueryMatches now t = false := by
  rw [todoRemSent_eq_true] at hsent
  obtain ⟨x, hx, hxid, hs⟩ := hsent
  have hxt : x = t := List.inj_on_of_nodup_map hnd hx ht hxid
  subst hxt
  simp [todoQueryMatches, hs]

/-- After firing reminder `i` of a matching event, the sweep leaves its
sent flag true. -/
lemma evRemSent_after_of_fires (now : Int) (s : DbState) (e : EventDoc)
    (i : Nat) (he : e ∈ s.events) (hq : eventQueryMatches now e = true)
    (hf : firesAt now e.start e.reminders i = true) :
    evRemSent e.id i (checkUpcomingEvents now s) = true := by
  rw [evRemSent_eq_true]
  simp only [firesAt] at hf
  cases hr : e.reminders.get? i with
  | none => rw [hr] at hf; cases hf
  | some r =>
    rw [hr] at hf
    have hf' : fires now e.start r = true := hf
    refine ⟨(processEvent now e).1,
      by rw [sweep_events_eq]; exact List.mem_map_of_mem _ he,
      processEvent_fst_id now e, markIfFires now e.start r, ?_, ?_⟩
    · rw [processEvent_fst_reminders, if_pos hq, get?_map', hr]
      rfl
    · simp [markIfFires, hf']

/-- After firing a matching todo, the sweep leaves its sent flag true. -/
lemma todoRemSent_after_of_match (now : Int) (s : DbState) (t : TodoDoc)
    (ht : t ∈ s.todos) (hq : todoQueryMatches now t = true) :
    todoRemSent t.id (checkUpcomingEvents now s) = true := by
  rw [todoRemSent_eq_true]
  refine ⟨(processTodo now t).1,
    by rw [sweep_todos_eq]; exact List.mem_map_of_mem _ ht,
    processTodo_fst_id now t, ?_⟩
  rw [processTodo_fst_sent, hq]
  simp

/-- One sweep, one target event reminder, unique event ids: the stored
count grows by at most one; it does not grow at all when the reminder is
already sent; and if it grew, the reminder is sent afterwards. -/
lemma sweep_ev_step (now : Int) (s : DbState) (eid i : Nat)
    (hnd : (s.events.map EventDoc.id).Nodup) :
    countEvRemNotifs eid i (checkUpcomingEvents now s).notifs ≤
      countEvRemNotifs eid i s.notifs + 1 ∧
    (evRemSent eid i s = true →
      countEvRemNotifs eid i (checkUpcomingEvents now s).notifs =
        countEvRemNotifs eid i s.notifs) ∧
    (countEvRemNotifs eid i (checkUpcomingEvents now s).notifs ≠
        countEvRemNotifs eid i s.notifs →
      evRemSent eid i (checkUpcomingEvents now s) = true) := by
  rw [sweep_notifs_evCount]
  by_cases hmem : eid ∈ s.events.map EventDoc.id
  · obtain ⟨e, he, rfl⟩ := List.mem_map.mp hmem
    rw [evCountSum_of_mem now i s.events e hnd he, processEvent_snd_count]
    refine ⟨by split_ifs <;> omega, ?_, ?_⟩
    · intro hsent
      have hff := firesAt_false_of_sent now s e i hnd he hsent
      rw [if_neg (fun hc => absurd hc.2.2 (by simp [hff]))]
      omega
    · intro hne
      by_cases hc : e.id = e.id ∧ eventQueryMatches now e = true ∧
          firesAt now e.start e.reminders i = true
      · exact evRemSent_after_of_fires now s e i he hc.2.1 hc.2.2
      · rw [if_neg hc] at hne
        omega
  · rw [evCountSum_zero_of_not_mem now eid i s.events hmem]
    exact ⟨by omega, fun _ => by omega, fun hne => absurd (by omega) hne⟩

/-- One sweep, one target todo reminder, unique todo ids: same shape as
`sweep_ev_step`. -/
lemma sweep_todo_step (now : Int) (s : DbState) (tid : Nat)
    (hnd : (s.todos.map TodoDoc.id).Nodup) :
    countTodoRemNotifs tid (checkUpcomingEvents now s).notifs ≤
      countTodoRemNotifs tid s.notifs + 1 ∧
    (todoRemSent tid s = true →
      countTodoRemNotifs tid (checkUpcomingEvents now s).notifs =
        countTodoRemNotifs tid s.notifs) ∧
    (countTodoRemNotifs tid (checkUpcomingEvents now s).notifs ≠
        countTodoRemNotifs tid s.notifs →
      todoRemSent tid (checkUpcomingEvents now s) = true) := by
  rw [sweep_notifs_todoCount]
  by_cases hmem : tid ∈ s.todos.map TodoDoc.id
  · obtain ⟨t, ht, rfl⟩ := List.mem_map.mp hmem
    rw [todoCountSum_of_mem now s.todos t hnd ht, processTodo_snd_todoCount]
    refine ⟨by split_ifs <;> omega, ?_, ?_⟩
    · intro hsent
      have hff := todoQueryMatches_false_of_sent now s t hnd ht hsent
      rw [if_neg (fun hc => absurd hc.2 (by simp [hff]))]
      omega
    · intro hne
      by_cases hc : t.id = t.id ∧ todoQueryMatches now t = true
      · exact todoRemSent_after_of_match now s t ht hc.2
      · rw [if_neg hc] at hne
        omega
  · rw [todoCountSum_zero_of_not_mem now tid s.todos hmem]
    exact ⟨by omega, fun _ => by omega, fun hne => absurd (by omega) hne⟩

/-- Sweeping preserves the id columns of both collections. -/
lemma sweeps_ids (ts : List Int) : ∀ s : DbState,
    (sweeps ts s).events.map EventDoc.id = s.events.map EventDoc.id ∧
    (sweeps ts s).todos.map TodoDoc.id = s.todos.map TodoDoc.id := by
  induction ts with
  | nil => intro s; exact ⟨rfl, rfl⟩
  | cons t ts ih =>
    intro s
    have h := ih (checkUpcomingEvents t s)
    rw [sweeps]
    rw [sweep_events_ids, sweep_todos_ids] at h
    exact h

/-- The at-most-once invariant for an event reminder, carried over any
sequence of sweeps. -/
lemma sweeps_ev_invariant (eid i : Nat) (ts : List Int) : ∀ s : DbState,
    (s.events.map EventDoc.id).Nodup →
    countEvRemNotifs eid i s.notifs ≤ 1 →
    (countEvRemNotifs eid i s.notifs = 1 → evRemSent eid i s = true) →
    countEvRemNotifs eid i (sweeps ts s).notifs ≤ 1 ∧
    (countEvRemNotifs eid i (sweeps ts s).notifs = 1 →
      evRemSent eid i (sweeps ts s) = true) := by
  induction ts with
  | nil => intro s _ h1 h2; exact ⟨h1, h2⟩
  | cons t ts ih =>
    intro s hnd h1 h2
    obtain ⟨hb, hsent0, hgrow⟩ := sweep_ev_step t s eid i hnd
    rw [sweeps]
    have hnd' : ((checkUpcomingEvents t s).events.map EventDoc.id).Nodup := by
      rw [sweep_events_ids]; exact hnd
    by_cases hch : countEvRemNotifs eid i (checkUpcomingEvents t s).notifs =
        countEvRemNotifs eid i s.notifs
    · refine ih (checkUpcomingEvents t s) hnd' (by omega) ?_
      intro h1'
      exact evRemSent_mono_sweep t s eid i (h2 (by omega))
    · have hs1 := hgrow hch
      have hc0 : countEvRemNotifs eid i s.notifs = 0 := by
        by_contra hc
        have : countEvRemNotifs eid i s.notifs = 1 := by omega
        exact hch (hsent0 (h2 this))
      exact ih (checkUpcomingEvents t s) hnd' (by omega) (fun _ => hs1)

/-- The at-most-once invariant for a todo reminder, carried over any
sequence of sweeps. -/
lemma sweeps_todo_invariant (tid : Nat) (ts : List Int) : ∀ s : DbState,
    (s.todos.map TodoDoc.id).Nodup →
    countTodoRemNotifs tid s.notifs ≤ 1 →
    (countTodoRemNotifs tid s.notifs = 1 → todoRemSent tid s = true) →
    countTodoRemNotifs tid (sweeps ts s).notifs ≤ 1 ∧
    (countTodoRemNotifs tid (sweeps ts s).notifs = 1 →
      todoRemSent tid (sweeps ts s) = true) := by
  induction ts with
  | nil => intro s _ h1 h2; exact ⟨h1, h2⟩
  | cons t ts ih =>
    intro s hnd h1 h2
    obtain ⟨hb, hsent0, hgrow⟩ := sweep_todo_step t s tid hnd
    rw [sweeps]
    have hnd' : ((checkUpcomingEvents t s).todos.map TodoDoc.id).Nodup := by
      rw [sweep_todos_ids]; exact hnd
    by_cases hch : countTodoRemNotifs tid (checkUpcomingEvents t s).notifs =
        countTodoRemNotifs tid s.notifs
    · refine ih (checkUpcomingEvents t s) hnd' (by omega) ?_
      intro h1'
      exact todoRemSent_mono_sweep t s tid (h2 (by omega))
    · have hs1 := hgrow hch
      have hc0 : countTodoRemNotifs tid s.notifs = 0 := by
        by_contra hc
        have : countTodoRemNotifs tid s.notifs = 1 := by omega
        exact hch (hsent0 (h2 this))
      exact ih (checkUpcomingEvents t s) hnd' (by omega) (fun _ => hs1)

/-- Once sent, a reminder is never reconsidered on any later sweep: the
flag stays true and no notification is ever added for it. -/
lemma sweeps_ev_sent (eid i : Nat) (ts : List Int) : ∀ s : DbState,
    (s.events.map EventDoc.id).Nodup → evRemSent eid i s = true →
    countEvRemNotifs eid i (sweeps ts s).notifs =
      countEvRemNotifs eid i s.notifs ∧
    evRemSent eid i (sweeps ts s) = true := by
  induction ts with
  | nil => intro s _ h; exact ⟨rfl, h⟩
  | cons t ts ih =>
    intro s hnd h
    obtain ⟨-, hsent0, -⟩ := sweep_ev_step t s eid i hnd
    have hnd' : ((checkUpcomingEvents t s).events.map EventDoc.id).Nodup := by
      rw [sweep_events_ids]; exact hnd
    have h' := evRemSent_mono_sweep t s eid i h
    obtain ⟨ha, hb⟩ := ih (checkUpcomingEvents t s) hnd' h'
    rw [sweeps]
    exact ⟨by rw [ha, hsent0 h], hb⟩

lemma sweeps_todo_sent (tid : Nat) (ts : List Int) : ∀ s : DbState,
    (s.todos.map TodoDoc.id).Nodup → todoRemSent tid s = true →
    countTodoRemNotifs tid (sweeps ts s).notifs =
      countTodoRemNotifs tid s.notifs ∧
    todoRemSent tid (sweeps ts s) = true := by
  induction ts with
  | nil => intro s _ h; exact ⟨rfl, h⟩
  | cons t ts ih =>
    intro s hnd h
    obtain ⟨-, hsent0, -⟩ := sweep_todo_step t s tid hnd
    have hnd' : ((checkUpcomingEvents t s).todos.map TodoDoc.id).Nodup := by
      rw [sweep_todos_ids]; exact hnd
    have h' := todoRemSent_mono_sweep t s tid h
    obtain ⟨ha, hb⟩ := ih (checkUpcomingEvents t s) hnd' h'
    rw [sweeps]
    exact ⟨by rw [ha, hsent0 h], hb⟩

/-- Claim C1: for every reminder instance — event reminder `(eid, i)` or
todo reminder `tid` — across any sequence of dispatcher sweeps with all
writes succeeding, at most one notification is ever created for it
(starting from a store holding none for it); a reminder whose sent flag is
true is never reconsidered (its notification count never changes again and
the flag stays true — the flag only flips false to true, never back). -/
theorem reminder_at_most_once (s : DbState) (ts : List Int) (eid i tid : Nat)
    (hndE : (s.events.map EventDoc.id).Nodup)
    (hndT : (s.todos.map TodoDoc.id).Nodup) :
    (countEvRemNotifs eid i s.notifs = 0 →
      countEvRemNotifs eid i (sweeps ts s).notifs ≤ 1) ∧
    (evRemSent eid i s = true →
      countEvRemNotifs eid i (sweeps ts s).notifs =
        countEvRemNotifs eid i s.notifs ∧
      evRemSent eid i (sweeps ts s) = true) ∧
    (countTodoRemNotifs tid s.notifs = 0 →
      countTodoRemNotifs tid (sweeps ts s).notifs ≤ 1) ∧
    (todoRemSent tid s = true →
      countTodoRemNotifs tid (sweeps ts s).notifs =
        countTodoRemNotifs tid s.notifs ∧
      todoRemSent tid (sweeps ts s) = true) :=
  ⟨fun h0 => (sweeps_ev_invariant eid i ts s hndE (by omega)
      (fun h1 => absurd h1 (by omega))).1,
   fun hs => sweeps_ev_sent eid i ts s hndE hs,
   fun h0 => (sweeps_todo_invariant tid ts s hndT (by omega)
      (fun h1 => absurd h1 (by omega))).1,
   fun hs => sweeps_todo_sent tid ts s hndT hs⟩

/-- Witness for C1: one event reminder due at the first tick, three ticks;
the stored notification count for it stays at most one. -/
theorem reminder_at_most_once_witness :
    countEvRemNotifs 1 0 (sweeps [0, 1, 2 * msPerMin]
      ⟨[⟨1, 0, 10 * msPerMin, [⟨15, false⟩]⟩],
       [⟨2, 0, "pending", some (30 * msPerMin), ⟨true, false⟩⟩],
       []⟩).notifs ≤ 1 :=
  (reminder_at_most_once
    ⟨[⟨1, 0, 10 * msPerMin, [⟨15, false⟩]⟩],
     [⟨2, 0, "pending", some (30 * msPerMin), ⟨true, false⟩⟩],
     []⟩ [0, 1, 2 * msPerMin] 1 0 2 (by decide) (by decide)).1 (by decide)

/-- Claim C3 counterexample: an event that has already started
(`start = now = 0`) carrying a due unsent reminder (`fires` holds: the
trigger instant `start - 5 min` has passed and `sent = false`), yet the
sweep creates no notification for it — the event query demands
`start > now`, so the claim fails without a precondition that the event
has not started. -/
theorem sweep_skips_started_event_reminder :
    fires 0 0 ⟨5, false⟩ = true ∧
    countEvRemNotifs 1 0 (checkUpcomingEvents 0
      ⟨[⟨1, 0, 0, [⟨5, false⟩]⟩], [], []⟩).notifs = 0 := by
  constructor
  · decide
  · decide

/-- Claim C3 as amended: a reminder with trigger instant at or before now
and `sent = false`, on an event that has not yet started (`now < start` —
the precondition the event query forces), gets exactly one notification
created by the next sweep. -/
theorem due_unsent_reminder_fires_once (s : DbState) (now : Int)
    (e : EventDoc) (i : Nat) (r : Reminder)
    (hnd : (s.events.map EventDoc.id).Nodup)
    (he : e ∈ s.events) (hstart : now < e.start)
    (hr : e.reminders.get? i = some r) (hsent : r.sent = false)
    (htrig : e.start - r.time * msPerMin ≤ now) :
    countEvRemNotifs e.id i (checkUpcomingEvents now s).notifs =
      countEvRemNotifs e.id i s.notifs + 1 := by
  rw [sweep_notifs_evCount, evCountSum_of_mem now i s.events e hnd he,
    processEvent_snd_count]
  have hfire : fires now e.start r = true := by
    simp [fires, hsent, htrig]
  have hq : eventQueryMatches now e = true := by
    simp only [eventQueryMatches, Bool.and_eq_true, decide_eq_true_eq,
      List.any_eq_true]
    exact ⟨hstart, r, mem_of_get?' hr, by simp [hsent]⟩
  have hfa : firesAt now e.start e.reminders i = true := by
    simp only [firesAt, hr]
    exact hfire
  rw [if_pos ⟨rfl, hq, hfa⟩]

/-- Witness for the amended C3: a 15-minute reminder on an event starting
at minute 10, sweep at minute 9 — exactly one notification appears. -/
theorem due_unsent_reminder_fires_once_witness :
    countEvRemNotifs 3 0 (checkUpcomingEvents (9 * msPerMin)
      ⟨[⟨3, 0, 10 * msPerMin, [⟨15, false⟩]⟩], [], []⟩).notifs =
    countEvRemNotifs 3 0
      (⟨[⟨3, 0, 10 * msPerMin, [⟨15, false⟩]⟩], [], []⟩ : DbState).notifs
      + 1 :=
  due_unsent_reminder_fires_once
    ⟨[⟨3, 0, 10 * msPerMin, [⟨15, false⟩]⟩], [], []⟩ (9 * msPerMin)
    ⟨3, 0, 10 * msPerMin, [⟨15, false⟩]⟩ 0 ⟨15, false⟩
    (by decide) (by decide) (by decide) (by decide) (by decide) (by decide)

/-- Claim C10: an event whose start instant is at or before now is
invisible to the sweep, whatever its reminders' sent flags or trigger
instants: its stored document is untouched and no notification is created
for any of its reminders — the event query selects only
`start: { $gt: now }`. -/
theorem started_event_never_dispatched (s : DbState) (now : Int)
    (e : EventDoc) (j i : Nat)
    (hnd : (s.events.map EventDoc.id).Nodup)
    (hj : s.events.get? j = some e) (hstart : e.start ≤ now) :
    (checkUpcomingEvents now s).events.get? j = some e ∧
    countEvRemNotifs e.id i (checkUpcomingEvents now s).notifs =
      countEvRemNotifs e.id i s.notifs := by
  have hq : eventQueryMatches now e = false := by
    simp [eventQueryMatches, show ¬ now < e.start from by omega]
  constructor
  · rw [sweep_events_eq, get?_map', hj]
    simp [processEvent, hq]
  · rw [sweep_notifs_evCount,
      evCountSum_of_mem now i s.events e hnd (mem_of_get?' hj),
      processEvent_snd_count,
      if_neg (fun hc => absurd hc.2.1 (by simp [hq]))]
    omega

/-- Witness for C10: an already-started event with a long-due unsent
reminder survives a sweep untouched and gains no notification. -/
theorem started_event_never_dispatched_witness :
    (checkUpcomingEvents 0
        ⟨[⟨4, 0, 0, [⟨5, false⟩]⟩], [], []⟩).events.get? 0 =
      some ⟨4, 0, 0, [⟨5, false⟩]⟩ ∧
    countEvRemNotifs 4 0 (checkUpcomingEvents 0
        ⟨[⟨4, 0, 0, [⟨5, false⟩]⟩], [], []⟩).notifs =
      countEvRemNotifs 4 0
        (⟨[⟨4, 0, 0, [⟨5, false⟩]⟩], [], []⟩ : DbState).notifs :=
  started_event_never_dispatched
    ⟨[⟨4, 0, 0, [⟨5, false⟩]⟩], [], []⟩ 0 ⟨4, 0, 0, [⟨5, false⟩]⟩ 0 0
    (by decide) (by decide) (by decide)

/-! ## Failure-injected sweep (for the failure-isolation claim)

`fails` is an oracle saying whether the `Notification.create` call for a
given document throws (a transient store failure).  The source wraps the
whole sweep body in a single try/catch; an exception thrown while creating
one notification therefore aborts both loops on the spot — effects already
persisted by earlier iterations remain — and the catch merely logs, so the
sweep invocation itself returns normally.  A failure of the subsequent
`save` call would follow the same control flow (propagate to the same
catch); only create failures are injected here. -/

/-- Reminder loop with failure injection: a throwing create aborts the
loop before marking that reminder sent; earlier iterations (already saved)
keep their marks and notifications.  The third component is false when an
exception escaped. -/
def processRemindersF (fails : NotifDoc → Bool) (now : Int) (e : EventDoc) :
    List Reminder → Nat → List Reminder × List NotifDoc × Bool
  | [], _ => ([], [], true)
  | r :: rs, i =>
    if fires now e.start r then
      if fails (evNotif e i) then (r :: rs, [], false)
      else
        let rest := processRemindersF fails now e rs (i + 1)
        ({ r with sent := true } :: rest.1, evNotif e i :: rest.2.1, rest.2.2)
    else
      let rest := processRemindersF fails now e rs (i + 1)
      (r :: rest.1, rest.2.1, rest.2.2)

def processEventF (fails : NotifDoc → Bool) (now : Int) (e : EventDoc) :
    EventDoc × List NotifDoc × Bool :=
  if eventQueryMatches now e then
    let res := processRemindersF fails now e e.reminders 0
    ({ e with reminders := res.1 }, res.2.1, res.2.2)
  else (e, [], true)

/-- The event loop with failure injection: an exception in one event's
processing leaves all later events untouched. -/
def processEventsF (fails : NotifDoc → Bool) (now : Int) :
    List EventDoc → List EventDoc × List NotifDoc × Bool
  | [] => ([], [], true)
  | e :: es =>
    let r := processEventF fails now e
    if r.2.2 then
      let rest := processEventsF fails now es
      (r.1 :: rest.1, r.2.1 ++ rest.2.1, rest.2.2)
    else (r.1 :: es, r.2.1, false)

def processTodoF (fails : NotifDoc → Bool) (now : Int) (t : TodoDoc) :
    TodoDoc × List NotifDoc × Bool :=
  if todoQueryMatches now t then
    if fails (todoNotif t) then (t, [], false)
    else ({ t with reminder := { t.reminder with sent := true } },
      [todoNotif t], true)
  else (t, [], true)

def processTodosF (fails : NotifDoc → Bool) (now : Int) :
    List TodoDoc → List TodoDoc × List NotifDoc × Bool
  | [] => ([], [], true)
  | t :: ts =>
    let r := processTodoF fails now t
    if r.2.2 then
      let rest := processTodosF fails now ts
      (r.1 :: rest.1, r.2.1 ++ rest.2.1, rest.2.2)
    else (r.1 :: ts, r.2.1, false)

/-- One sweep with failure injection.  An exception during the event loop
skips the todo loop entirely (it propagates to the one try/catch at the
top of `checkUpcomingEvents`); the catch logs and returns, so the sweep
always yields a state. -/
def checkUpcomingEventsF (fails : NotifDoc → Bool) (now : Int)
    (s : DbState) : DbState :=
  let ev := processEventsF fails now s.events
  if ev.2.2 then
    let td := processTodosF fails now s.todos
    { events := ev.1, todos := td.1, notifs := s.notifs ++ ev.2.1 ++ td.2.1 }
  else
    { events := ev.1, todos := s.todos, notifs := s.notifs ++ ev.2.1 }

lemma processEventsF_fail_split (fails : NotifDoc → Bool) (now : Int)
    (e : EventDoc) (post : List EventDoc)
    (hfail : (processEventF fails now e).2.2 = false) :
    ∀ pre : List EventDoc,
      (∀ x ∈ pre, (processEventF fails now x).2.2 = true) →
      processEventsF fails now (pre ++ e :: post) =
        (pre.map (fun x => (processEventF fails now x).1) ++
          (processEventF fails now e).1 :: post,
         (pre.map (fun x => (processEventF fails now x).2.1)).flatten ++
           (processEventF fails now e).2.1,
         false) := by
  intro pre
  induction pre with
  | nil =>
    intro _
    simp [processEventsF, hfail]
  | cons x pre ih =>
    intro hok
    have hx : (processEventF fails now x).2.2 = true := hok x (by simp)
    simp only [List.cons_append, processEventsF, hx, if_true, List.append_eq]
    rw [ih (fun y hy => hok y (by simp [hy]))]
    simp

/-- Demonstration store for the failure claim: two events with due unsent
reminders and one due todo. -/
def failDemoState : DbState :=
  ⟨[⟨1, 0, 10 * msPerMin, [⟨15, false⟩]⟩,
    ⟨2, 0, 10 * msPerMin, [⟨15, false⟩]⟩],
   [⟨7, 0, "pending", some (30 * msPerMin), ⟨true, false⟩⟩], []⟩

/-- Failure oracle that throws exactly on the create for reminder 0 of
event 1. -/
def failOnFirst : NotifDoc → Bool :=
  fun n => decide (n.srcEventReminder = some (1, 0))

/-- Claim C4 counterexample: event 1, event 2 and todo 7 are all due, and
the create for event 1 throws.  The same sweep then creates nothing for
event 2 (its reminder also stays unsent) and nothing for todo 7, even
though the failure-free sweep does create event 2's notification: the
single try/catch aborts the whole sweep body instead of isolating the
failing item. -/
theorem sweep_failure_not_isolated :
    countEvRemNotifs 2 0
      (checkUpcomingEventsF failOnFirst 0 failDemoState).notifs = 0 ∧
    evRemSent 2 0 (checkUpcomingEventsF failOnFirst 0 failDemoState)
      = false ∧
    countTodoRemNotifs 7
      (checkUpcomingEventsF failOnFirst 0 failDemoState).notifs = 0 ∧
    countEvRemNotifs 2 0
      (checkUpcomingEvents 0 failDemoState).notifs = 1 := by
  exact ⟨by decide, by decide, by decide, by decide⟩

/-- Claim C4 as amended: a create failure for one event is caught at the
sweep level (the sweep still returns a state) but aborts the rest of that
sweep: events before the failing one keep their full processing, the
failing event keeps only the effects persisted before the throw, every
event after it and the entire todo phase are left untouched (to be
retried, still unsent, on the next tick). -/
theorem sweep_failure_aborts_rest (fails : NotifDoc → Bool) (now : Int)
    (s : DbState) (pre : List EventDoc) (e : EventDoc)
    (post : List EventDoc) (hsplit : s.events = pre ++ e :: post)
    (hok : ∀ x ∈ pre, (processEventF fails now x).2.2 = true)
    (hfail : (processEventF fails now e).2.2 = false) :
    (checkUpcomingEventsF fails now s).events =
      pre.map (fun x => (processEventF fails now x).1) ++
        (processEventF fails now e).1 :: post ∧
    (checkUpcomingEventsF fails now s).todos = s.todos := by
  have h := processEventsF_fail_split fails now e post hfail pre hok
  simp [checkUpcomingEventsF, hsplit, h]

/-- Witness for the amended C4 at the demonstration store: the failure on
event 1 leaves event 2 exactly as stored and the todos unprocessed. -/
theorem sweep_failure_aborts_rest_witness :
    (checkUpcomingEventsF failOnFirst 0 failDemoState).events =
      ([] : List EventDoc).map
        (fun x => (processEventF failOnFirst 0 x).1) ++
        (processEventF failOnFirst 0
          ⟨1, 0, 10 * msPerMin, [⟨15, false⟩]⟩).1 ::
        [⟨2, 0, 10 * msPerMin, [⟨15, false⟩]⟩] ∧
    (checkUpcomingEventsF failOnFirst 0 failDemoState).todos =
      failDemoState.todos :=
  sweep_failure_aborts_rest failOnFirst 0 failDemoState []
    ⟨1, 0, 10 * msPerMin, [⟨15, false⟩]⟩
    [⟨2, 0, 10 * msPerMin, [⟨15, false⟩]⟩]
    (by decide) (by simp) (by decide)

end Chronos
